import Mathlib

/-!
# Verification of the epub_annotate chapter annotation & merge pipeline

Shallow embedding of `annotate.py`: the cache decorator (`cached`), the
merge engine inside `process_chapter` (footnotes, sentence addition,
illustration placement), the remote-call adapter post-processing
(`get_completion_text`), and the thread-pool dispatcher (`run_threaded`).

Markup and Python strings are modelled as `List Char` (`Str`); Python dicts
with possibly-missing keys as structures with `Option` fields; a Python
`KeyError` as `Except.error`.
-/

namespace EpubAnnotate

/-- Python strings / markup text, modelled as lists of characters. -/
abbrev Str := List Char

/-! ## Cache store (annotate.py lines 30–58)

`shelve` store modelled as an association list where `storePut` prepends and
`storeGet` returns the most recent binding (so a put overwrites). -/

/-- `cache_db.get(key)` (annotate.py line 39). -/
def storeGet {V : Type} : List (String × V) → String → Option V
  | [], _ => none
  | (k', v) :: rest, k => if k' = k then some v else storeGet rest k

/-- `cache_db[key] = value` (annotate.py line 36). -/
def storePut {V : Type} (s : List (String × V)) (k : String) (v : V) : List (String × V) :=
  (k, v) :: s

/-- Python truthiness of the popped `cache_key` kwarg: `None` and the empty
string are falsy (annotate.py lines 50–51). -/
def truthyKey : Option String → Bool
  | none => false
  | some s => !s.isEmpty

/-- Observable outcome of one call through the `cached` wrapper:
the returned value, the store afterwards, how many times `get_cache` was
consulted, and how many times the underlying function ran. -/
structure CacheCallResult (V : Type) where
  value : V
  store : List (String × V)
  reads : Nat
  calls : Nat
  deriving Repr

/-- The `cached` decorator's wrapper (annotate.py lines 47–58).
`truthy` is Python truthiness on cached values (`if cached := get_cache(...)`),
`fv` the value the wrapped function would produce if invoked. -/
def cachedCall {V : Type} (truthy : V → Bool) (store : List (String × V))
    (cacheKey : Option String) (fv : V) : CacheCallResult V :=
  if truthyKey cacheKey then
    let k := cacheKey.getD ""
    match storeGet store k with
    | some v =>
      if truthy v then ⟨v, store, 1, 0⟩
      else ⟨fv, storePut store k fv, 1, 1⟩
    | none => ⟨fv, storePut store k fv, 1, 1⟩
  else ⟨fv, store, 0, 1⟩

/-- A chapter run's sequence of cache-wrapped remote calls (the five
`get_completion_text` jobs plus `get_image`/`compress_image`,
annotate.py lines 256–263 and 298–300): call the wrapper once per key,
threading the store; `oracle i` is what the remote backend would return for
the `i`-th call; the final `Nat` counts underlying (remote) invocations. -/
def runCachedCalls {V : Type} (truthy : V → Bool) (oracle : Nat → V) :
    List String → List (String × V) → List V × List (String × V) × Nat
  | [], store => ([], store, 0)
  | k :: rest, store =>
    let r := cachedCall truthy store (some k) (oracle 0)
    let rr := runCachedCalls truthy (fun i => oracle (i + 1)) rest r.store
    (r.value :: rr.1, rr.2.1, r.calls + rr.2.2)

/-! ## String helpers for the merge engine -/

/-- Python `s.rstrip('.')` (annotate.py line 275): drop every trailing `.`. -/
def rstripDot (s : Str) : Str :=
  (s.reverse.dropWhile (fun c => c = '.')).reverse

/-- Python `pat in s` (substring containment; the empty pattern is contained
in every string, as in Python). -/
def inStr (pat : Str) : Str → Bool
  | [] => pat.isPrefixOf ([] : Str)
  | c :: rest => pat.isPrefixOf (c :: rest) || inStr pat rest

/-- Python `s.replace(pat, repl, 1)`: replace the first occurrence of `pat`
(leftmost; the empty pattern matches at the front, as in Python). -/
def replaceFirst (pat repl : Str) : Str → Str
  | [] => if pat.isPrefixOf ([] : Str) then repl else []
  | c :: rest =>
    if pat.isPrefixOf (c :: rest) then repl ++ (c :: rest).drop pat.length
    else c :: replaceFirst pat repl rest

/-! ## Footnote step of the merge engine (annotate.py lines 270–281)

An annotation result is a parsed JSON dict that may be missing keys, so both
fields are `Option`s.  The source's key is named `annotation`; the field is
called `note` here (same content).  A `KeyError` from `annotation["text"]` or
`annotation["annotation"]` is `Except.error ()`. -/

structure AnnotationR where
  text : Option Str
  note : Option Str
  deriving Repr

/-- The id `f'\x7bchapter_path.stem\x7d-note\x7bi\x7d'` (annotate.py line 278). -/
def noteId (stem : Str) (i : Nat) : Str :=
  stem ++ "-note".data ++ (Nat.repr i).data

/-- The replacement text spliced over the anchor: the anchor followed by the
noteref marker with the current footnote number (annotate.py line 279;
`annotation["reader"]` has just been set to `"Publisher"`). -/
def noterefMarker (text id : Str) (n : Nat) : Str :=
  text ++ "<a class=\"noteref Publisher\" epub:type=\"noteref\" href=\"#".data ++ id
       ++ "\"><sup>".data ++ (Nat.repr n).data ++ "</sup></a>".data

/-- The footnote aside appended to `section_append` (annotate.py line 281). -/
def footnoteBlock (ws id note : Str) : Str :=
  ws ++ "<aside class=\"footnote\" epub:type=\"footnote\" id=\"".data ++ id
     ++ "\"><strong>Publisher:</strong> ".data ++ note ++ "</aside>".data

/-- State mutated by the footnote loop: `section_xml`, `footnote_number`,
`section_append`, plus the list of reference numbers interpolated into
inserted noteref markers so far (each found anchor's marker carries
`footnote_number`, see `noterefMarker`). -/
structure FootState where
  sectionXml : Str
  footnoteNumber : Nat
  sectionAppend : List Str
  insertedNumbers : List Nat
  deriving Repr

/-- The footnote loop (annotate.py lines 271–281), keeping the source's
condition verbatim: `if not 'text' in annotation and 'annotation' in
annotation: continue` parses as `(not 'text' in annotation) and ('annotation'
in annotation)`, so only the (no text, has note) case is skipped; a missing
`text` otherwise raises `KeyError` at `annotation["text"]`, and a missing
note raises `KeyError` at `annotation["annotation"]` once the anchor is
found. `i` is the `enumerate` index. -/
def footnoteLoop (stem ws : Str) : List AnnotationR → Nat → FootState → Except Unit FootState
  | [], _, st => Except.ok st
  | a :: rest, i, st =>
    if a.text.isNone && a.note.isSome then
      footnoteLoop stem ws rest (i + 1) st
    else
      match a.text with
      | none => Except.error ()
      | some t =>
        if inStr (rstripDot t) st.sectionXml then
          match a.note with
          | none => Except.error ()
          | some note =>
            footnoteLoop stem ws rest (i + 1)
              ⟨replaceFirst (rstripDot t)
                  (noterefMarker (rstripDot t) (noteId stem i) st.footnoteNumber) st.sectionXml,
                st.footnoteNumber + 1,
                st.sectionAppend ++ [footnoteBlock ws (noteId stem i) note],
                st.insertedNumbers ++ [st.footnoteNumber]⟩
        else footnoteLoop stem ws rest (i + 1) st

/-! ## Sentence-addition step (annotate.py lines 283–288) -/

/-- One parsed result of the `addition` tool (schema `Addition`, both fields
required by the schema). -/
structure AdditionR where
  existing_sentence : Str
  new_sentence : Str
  deriving Repr

/-- The explanatory aside appended for the applied addition
(annotate.py line 287). -/
def additionBlock (ws ns : Str) : Str :=
  ws ++ "<div class=\"ai-addition annotation-box\">The Publisher regretted the necessity to add: ".data
     ++ ns ++ "</div>".data

/-- The addition loop (annotate.py lines 284–288): scan the candidates in
order; on the first whose `existing_sentence` occurs in `section_xml`,
replace that first occurrence with itself, a space and the new sentence,
append the aside, and `break`.  State is `(section_xml, section_append)`. -/
def additionLoop (ws : Str) : List AdditionR → Str × List Str → Str × List Str
  | [], st => st
  | a :: rest, st =>
    if inStr a.existing_sentence st.1 then
      (replaceFirst a.existing_sentence
          (a.existing_sentence ++ " ".data ++ a.new_sentence) st.1,
        st.2 ++ [additionBlock ws a.new_sentence])
    else additionLoop ws rest st

/-- Modelled from the spec: "scan the addition candidates (best-of-N) in
order; take the *first* candidate whose anchor sentence is found as a literal
substring; replace that occurrence with itself followed by a space and the
new sentence; ... stop after the first success (at most one addition per
chapter)" — phrased directly with `List.find?` over the original markup. -/
def additionSpec (ws : Str) (adds : List AdditionR) (xml : Str) (app : List Str) :
    Str × List Str :=
  match adds.find? (fun a => inStr a.existing_sentence xml) with
  | none => (xml, app)
  | some a =>
    (replaceFirst a.existing_sentence (a.existing_sentence ++ " ".data ++ a.new_sentence) xml,
      app ++ [additionBlock ws a.new_sentence])

/-! ## Remote Call Adapter post-processing (annotate.py lines 152–162)

The structured output parsed by `partial_json_loads` from each choice is
modelled as a small JSON value type; a dict is an association list whose keys
are unique (Python dict).  `make_openai_tool_list` (lines 102–105) wraps the
item schema in an `ItemList` model with the single field `items`. -/

inductive PJson : Type where
  | str : String → PJson
  | arr : List PJson → PJson
  | obj : List (String × PJson) → PJson
  deriving Repr

/-- The single enclosing field name produced by `make_openai_tool_list`'s
`ItemList` model (annotate.py line 104). -/
def itemsKey : String := "items"

/-- `if out.keys() == \x7b'items'\x7d: out = out['items']` (annotate.py
lines 156–157): since dict keys are unique, the key *set* equals
`\x7b'items'\x7d` exactly when the dict has a single field named `items`. -/
def unwrapChoice : PJson → PJson
  | PJson.obj [(k, v)] => if k = itemsKey then v else PJson.obj [(k, v)]
  | j => j

/-- The `out_list` accumulation over the response's choices in the tool
branch (annotate.py lines 153–158): parse each choice, unwrap a sole
`items` field, and append in choice order. -/
def toolOutList (choices : List PJson) : List PJson :=
  choices.map unwrapChoice

/-! ## Concurrent Task Dispatcher (annotate.py lines 189–191)

`run_threaded` is `list(executor.map(...))` over a `ThreadPoolExecutor`.
Two facets are modelled.

For ordering (C7): `executor.map` stores each job's result in a future slot
indexed by submission position and yields slots in submission order, however
the completions interleave.  `poolWrite` plays the completion schedule
`sched` (the order in which futures finish), filling a table from submission
index to result; `runPool` then reads the table in submission order. -/

def poolWrite {α β : Type} (f : α → β) (jobs : List α) : List Nat → Nat → Option β
  | [], _ => none
  | k :: rest, i => if i = k then (jobs.get? k).map f else poolWrite f jobs rest i

/-- The results of `run_threaded(f, jobs)` under completion schedule `sched`,
read out in submission order (`none` would mean an unfilled slot). -/
def runPool {α β : Type} (f : α → β) (jobs : List α) (sched : List Nat) : List (Option β) :=
  (List.range jobs.length).map (fun i => poolWrite f jobs sched i)

/-! For failure isolation (C6): `executor.map` submits every job up front,
and workers pull queued jobs in submission order, so the set of jobs that
ever *start* is a prefix of the submission order.  `list(executor.map(...))`
raises at the first failed future in submission order, and the map result
iterator's cleanup then cancels the futures still queued at that moment:
cancelled jobs never run.  Jobs already started run to completion
(`shutdown(wait=True)` on leaving the `with` block does not interrupt them).
Jobs are state transformers over a shared file system; chapter jobs touch
disjoint files, so serializing the started jobs is faithful. -/

/-- Run the *started* jobs to completion in submission order, threading the
state through all of them; the collected value is the first error in
submission order, else the ordered list of results. -/
def runThreadedFS {α σ β : Type} (f : α → σ → σ × Except Unit β) :
    List α → σ → σ × Except Unit (List β)
  | [], s => (s, Except.ok [])
  | j :: rest, s =>
    let r := f j s
    let rr := runThreadedFS f rest r.1
    (rr.1, match r.2 with
      | Except.error e => Except.error e
      | Except.ok b =>
        match rr.2 with
        | Except.error e => Except.error e
        | Except.ok bs => Except.ok (b :: bs))

/-- The per-chapter observable of `process_chapter` (annotate.py lines
195–317) as seen by the isolation claim: a chapter either fails partway (a
remote call raising) or runs to completion, writing its mutated chapter file
(`write_xml(chapter_path, pq)`, line 316) and returning its manifest
fragment (line 317). -/
structure ChapterJob where
  path : Str
  failing : Bool
  output : Str
  manifest : Str
  deriving Repr

/-- Chapter files, path to contents; writes overwrite (most recent first). -/
def fsGet : List (Str × Str) → Str → Option Str
  | [], _ => none
  | (p', v) :: rest, p => if p' = p then some v else fsGet rest p

/-- Write a chapter file. -/
def fsPut (fs : List (Str × Str)) (p v : Str) : List (Str × Str) :=
  (p, v) :: fs

/-- One chapter job run against the file system (see `ChapterJob`). -/
def processChapterM (c : ChapterJob) (fs : List (Str × Str)) :
    List (Str × Str) × Except Unit Str :=
  if c.failing then (fs, Except.error ()) else (fsPut fs c.path c.output, Except.ok c.manifest)

/-- Which stop points `m` (number of jobs that started before the map
iterator's cleanup cancelled the rest) a real execution of
`run_threaded(process_chapter, jobs)` on a pool of width `w` can exhibit:
if no job fails, nothing ever raises, nothing is cancelled and all jobs run
(`m = jobs.length`); if some job fails, cancellation happens only once the
consumer has observed a failed future, so the started prefix contains a
failing job, `m` is at most the job count, and at least `min w jobs.length`
jobs start immediately when `executor.map` submits them all. -/
def validSchedule (w : Nat) (jobs : List ChapterJob) (m : Nat) : Bool :=
  if jobs.any (fun c => c.failing) then
    (jobs.take m).any (fun c => c.failing) && decide (m ≤ jobs.length) &&
      decide (min w jobs.length ≤ m)
  else m == jobs.length

/-- `run_threaded(process_chapter, jobs)` (annotate.py lines 189–191 and
333) under executor semantics: the first `m` jobs (those that started) run
to completion, the still-queued rest are cancelled by the map iterator's
cleanup and never run. -/
def runThreadedPool (f : ChapterJob → List (Str × Str) → List (Str × Str) × Except Unit Str)
    (jobs : List ChapterJob) (m : Nat) (s : List (Str × Str)) :
    List (Str × Str) × Except Unit (List Str) :=
  runThreadedFS f (jobs.take m) s

/-! ## Illustration placement (annotate.py lines 304–305)

The chapter section's children are paragraph elements interleaved with other
elements; `section('p')` selects the paragraphs, and
`PyQuery(section('p')[len(section('p'))//2]).after(block)` inserts the block
as a sibling immediately after the middle paragraph. -/

inductive Node : Type where
  | para : Str → Node
  | other : Str → Node
  deriving Repr

/-- Whether a section child is a paragraph element. -/
def isPara : Node → Bool
  | Node.para _ => true
  | Node.other _ => false

/-- `section('p')`: the paragraph elements in document order. -/
def selectP (nodes : List Node) : List Node :=
  nodes.filter isPara

/-- `.after(b)` on the `k`-th paragraph: insert `b` as a sibling immediately
after the `k`-th paragraph element (0-based among paragraphs). -/
def afterNthPara (b : Node) : List Node → Nat → List Node
  | [], _ => []
  | n :: rest, k =>
    if isPara n then
      if k = 0 then n :: b :: rest else n :: afterNthPara b rest (k - 1)
    else n :: afterNthPara b rest k

/-- The section children up to and including the `k`-th paragraph. -/
def takeThroughPara : List Node → Nat → List Node
  | [], _ => []
  | n :: rest, k =>
    if isPara n then
      if k = 0 then [n] else n :: takeThroughPara rest (k - 1)
    else n :: takeThroughPara rest k

/-- The section children strictly after the `k`-th paragraph. -/
def dropAfterPara : List Node → Nat → List Node
  | [], _ => []
  | n :: rest, k =>
    if isPara n then
      if k = 0 then rest else dropAfterPara rest (k - 1)
    else dropAfterPara rest k

/-- The captioned image block (annotate.py line 305): whitespace, the div
and img markup, and the illustration's `existing_sentence` as the caption
inside `<em>`. `nm` is `illustration_path.name`. -/
def buildIllustrationDiv (ws nm s : Str) : Str :=
  ws ++ "<div class=\"ai-illustration annotation-box\">".data
     ++ ws ++ "<img src=\"../images/".data ++ nm ++ "\"/>".data
     ++ ws ++ "<p><em>".data ++ s ++ "</em></p>".data
     ++ ws ++ "</div>".data

/-- Everything of the illustration block before the caption sentence. -/
def illuDivPre (ws nm : Str) : Str :=
  ws ++ "<div class=\"ai-illustration annotation-box\">".data
     ++ ws ++ "<img src=\"../images/".data ++ nm ++ "\"/>".data
     ++ ws ++ "<p><em>".data

/-- Everything of the illustration block after the caption sentence. -/
def illuDivSuf (ws : Str) : Str :=
  "</em></p>".data ++ ws ++ "</div>".data

/-- The whole insertion (annotate.py lines 304–305): place the block after
the paragraph at index `len(section('p')) // 2`. -/
def illustrationInsert (nodes : List Node) (b : Node) : List Node :=
  afterNthPara b nodes ((selectP nodes).length / 2)

/-! ## Theorems -/

/-- Claim C10: when a `cached`-wrapped function is called without a
`cache_key` (or with an empty one), the underlying function runs
unconditionally and the cache store is neither read nor written: the value is
the underlying result, the store is returned unchanged, `get_cache` is never
consulted, and the wrapped function runs exactly once. -/
theorem cachedCall_no_key_frame {V : Type} (truthy : V → Bool) (store : List (String × V))
    (k : Option String) (fv : V) (h : truthyKey k = false) :
    cachedCall truthy store k fv = ⟨fv, store, 0, 1⟩ := by
  simp [cachedCall, h]

/-- Witness for C10: both a missing key and an empty key leave a concrete
store untouched and invoke the underlying function. -/
theorem cachedCall_no_key_frame_witness :
    truthyKey none = false ∧ truthyKey (some "") = false ∧
    cachedCall (fun v : Nat => v != 0) [("a", 3)] none 5 = ⟨5, [("a", 3)], 0, 1⟩ ∧
    cachedCall (fun v : Nat => v != 0) [("a", 3)] (some "") 5 = ⟨5, [("a", 3)], 0, 1⟩ :=
  ⟨rfl, rfl, cachedCall_no_key_frame _ _ none 5 rfl,
    cachedCall_no_key_frame _ _ (some "") 5 rfl⟩

/-- Claim C8: when a list-shaped schema is requested (the `ItemList` wrapper
of `make_openai_tool_list`), a backend choice whose parsed structure consists
of exactly the single enclosing `items` field is unwrapped into the plain
ordered sequence of the contained items, in choice order. -/
theorem unwrap_items_list (xs : List PJson) (rest : List PJson) :
    toolOutList (PJson.obj [(itemsKey, PJson.arr xs)] :: rest) =
      PJson.arr xs :: toolOutList rest := by
  simp [toolOutList, unwrapChoice]

/-- Claim C1 (code evaluation at the failing inputs): contrary to the claim,
an annotation result that has `text` but lacks `annotation` is *not* skipped:
once its anchor is found the loop raises `KeyError` (modelled as
`Except.error`), and an annotation result lacking both keys raises
`KeyError` at `annotation["text"]`.  The parenthesisation of the guard on
line 273 skips only the (no text, has annotation) case. -/
theorem footnoteLoop_missing_note_raises :
    footnoteLoop "chapter-1".data [] [⟨some "aa".data, none⟩] 0 ⟨"aa bb".data, 1, [], []⟩
        = Except.error () ∧
    footnoteLoop "chapter-1".data [] [⟨none, none⟩] 0 ⟨"aa bb".data, 1, [], []⟩
        = Except.error () := by
  constructor <;> rfl

/-- Claim C3: an annotation whose (period-stripped) anchor does not occur in
the current markup is skipped: the loop proceeds to the remaining annotations
with the state unchanged and raises no error of its own; likewise an
addition candidate whose anchor sentence does not occur leaves the state
unchanged and scanning proceeds to the remaining candidates. -/
theorem anchor_not_found_skip :
    (∀ (stem ws : Str) (rest : List AnnotationR) (i : Nat) (st : FootState)
        (t : Str) (nt : Option Str),
        inStr (rstripDot t) st.sectionXml = false →
        footnoteLoop stem ws (⟨some t, nt⟩ :: rest) i st = footnoteLoop stem ws rest (i + 1) st) ∧
    (∀ (ws : Str) (rest : List AdditionR) (st : Str × List Str) (e ns : Str),
        inStr e st.1 = false →
        additionLoop ws (⟨e, ns⟩ :: rest) st = additionLoop ws rest st) := by
  constructor
  · intro stem ws rest i st t nt h
    cases nt <;> simp [footnoteLoop, h]
  · intro ws rest st e ns h
    simp [additionLoop, h]

/-- Witness for C3: a concrete not-found anchor is skipped by both loops. -/
theorem anchor_not_found_skip_witness :
    inStr (rstripDot "zz".data) (FootState.mk "aa bb".data 1 [] []).sectionXml = false ∧
    footnoteLoop "c".data [] [⟨some "zz".data, some "N".data⟩] 0 ⟨"aa bb".data, 1, [], []⟩
        = footnoteLoop "c".data [] [] 1 ⟨"aa bb".data, 1, [], []⟩ ∧
    inStr "qq".data (("aa bb".data, ([] : List Str)) : Str × List Str).1 = false ∧
    additionLoop [] [⟨"qq".data, "NN".data⟩] ("aa bb".data, [])
        = additionLoop [] [] ("aa bb".data, []) :=
  ⟨rfl, anchor_not_found_skip.1 _ _ _ _ _ _ _ rfl, rfl,
    anchor_not_found_skip.2 _ _ _ _ _ rfl⟩

/-- Claim C5: the addition scan is equivalent to its specification — exactly
the first candidate (in order) whose anchor sentence occurs as a literal
substring of the markup is applied, scanning stops there, and at most one
sentence is ever inserted; a later matching candidate is never applied.
Because the markup is only mutated on the applied candidate (after which the
loop breaks), the scan tests every candidate against the original markup,
which is what `additionSpec`'s single `List.find?` expresses. -/
theorem additionLoop_eq_additionSpec (ws : Str) (adds : List AdditionR) (xml : Str)
    (app : List Str) :
    additionLoop ws adds (xml, app) = additionSpec ws adds xml app := by
  induction adds with
  | nil => simp [additionLoop, additionSpec]
  | cons a rest ih =>
    by_cases h : inStr a.existing_sentence xml = true
    · simp [additionLoop, additionSpec, List.find?, h]
    · have h' : inStr a.existing_sentence xml = false := by simpa using h
      simpa [additionLoop, additionSpec, List.find?, h'] using ih

/-- The invariant carried by the footnote loop: the running counter is one
more than the number of footnote blocks appended so far, and the reference
numbers inserted so far are exactly `1, 2, …` up to that count. -/
def footInv (st : FootState) : Prop :=
  st.footnoteNumber = st.sectionAppend.length + 1 ∧
  st.insertedNumbers = List.range' 1 st.sectionAppend.length

lemma footnoteLoop_inv (stem ws : Str) :
    ∀ (anns : List AnnotationR) (i : Nat) (st st' : FootState),
      footInv st → footnoteLoop stem ws anns i st = Except.ok st' → footInv st' := by
  intro anns
  induction anns with
  | nil =>
    intro i st st' hinv h
    rw [footnoteLoop] at h
    cases h
    exact hinv
  | cons a rest ih =>
    intro i st st' hinv h
    rw [footnoteLoop] at h
    split at h
    · exact ih _ _ _ hinv h
    · split at h
      · cases h
      · split at h
        · split at h
          · cases h
          · refine ih _ _ _ ?_ h
            obtain ⟨h1, h2⟩ := hinv
            exact ⟨by simp [h1], by simp [h2, h1, List.range'_concat, Nat.add_comm]⟩
        · exact ih _ _ _ hinv h

/-- Claim C4: whenever the footnote loop completes without error, the
reference numbers inserted into the markup are sequential starting at 1 over
found anchors only — they are exactly `1 … k` in order, where `k` is the
number of footnote blocks appended (one per anchor actually found), with no
gaps left for annotations whose anchors were not found. -/
theorem footnote_numbers_sequential (stem ws : Str) (anns : List AnnotationR) (m : Str)
    (st' : FootState)
    (h : footnoteLoop stem ws anns 0 ⟨m, 1, [], []⟩ = Except.ok st') :
    st'.insertedNumbers = List.range' 1 st'.sectionAppend.length :=
  (footnoteLoop_inv stem ws anns 0 _ st' ⟨rfl, rfl⟩ h).2

/-- The annotations of C4's witness: three annotations whose 1st and 3rd
anchors occur in the markup `"aa bb"` while the 2nd does not. -/
def c4Anns : List AnnotationR :=
  [⟨some "aa".data, some "N1".data⟩, ⟨some "zz".data, some "N2".data⟩,
    ⟨some "bb".data, some "N3".data⟩]

/-- The state the footnote loop reaches on the C4 witness input. -/
def c4St : FootState :=
  match footnoteLoop "ch".data [] c4Anns 0 ⟨"aa bb".data, 1, [], []⟩ with
  | Except.ok st => st
  | Except.error _ => ⟨[], 0, [], []⟩

/-- Witness for C4: on three annotations with only the 1st and 3rd anchors
found, the loop succeeds, and the inserted numbers are `[1, 2]` — not
`[1, 3]`. -/
theorem footnote_numbers_sequential_witness :
    footnoteLoop "ch".data [] c4Anns 0 ⟨"aa bb".data, 1, [], []⟩ = Except.ok c4St ∧
    c4St.insertedNumbers = List.range' 1 c4St.sectionAppend.length ∧
    c4St.insertedNumbers = [1, 2] :=
  ⟨rfl,
    footnote_numbers_sequential "ch".data [] c4Anns "aa bb".data c4St (by rfl),
    rfl⟩

lemma poolWrite_mem {α β : Type} (f : α → β) (jobs : List α) :
    ∀ (sched : List Nat) (i : Nat), i ∈ sched →
      poolWrite f jobs sched i = (jobs.get? i).map f := by
  intro sched
  induction sched with
  | nil => intro i hi; cases hi
  | cons k rest ih =>
    intro i hi
    rw [poolWrite]
    by_cases hik : i = k
    · subst hik; simp
    · rw [if_neg hik]
      exact ih i ((List.mem_cons.mp hi).resolve_left hik)

lemma range_map_get {α β : Type} (f : α → β) :
    ∀ l : List α,
      (List.range l.length).map (fun i => (l.get? i).map f) = l.map (fun a => some (f a)) := by
  intro l
  induction l with
  | nil => rfl
  | cons a t ih =>
    rw [List.length_cons, List.range_succ_eq_map, List.map_cons, List.map_cons, List.map_map,
      ← ih]
    congr 1

/-- Claim C7: the dispatcher returns results in submission order regardless
of completion order — for every completion schedule `sched` (any permutation
of the submission indices), the sequence read out of the future slots equals
the sequential map of the job function over the jobs in submission order. -/
theorem runPool_order_preserved {α β : Type} (f : α → β) (jobs : List α) (sched : List Nat)
    (h : sched.Perm (List.range jobs.length)) :
    runPool f jobs sched = jobs.map (fun j => some (f j)) := by
  unfold runPool
  rw [← range_map_get f jobs]
  apply List.map_congr_left
  intro i hi
  exact poolWrite_mem f jobs sched i (h.mem_iff.mpr hi)

/-- Witness for C7: five jobs completing in exactly reversed order still
yield results in submission order. -/
theorem runPool_order_preserved_witness :
    ([4, 3, 2, 1, 0] : List Nat).Perm (List.range 5) ∧
    runPool (fun n : Nat => n * 10) [1, 2, 3, 4, 5] [4, 3, 2, 1, 0]
      = [some 10, some 20, some 30, some 40, some 50] := by
  refine ⟨by decide, ?_⟩
  rw [runPool_order_preserved (fun n : Nat => n * 10) [1, 2, 3, 4, 5] [4, 3, 2, 1, 0]
    (by decide)]
  rfl

lemma runThreadedFS_fs_frame :
    ∀ (jobs : List ChapterJob) (fs : List (Str × Str)) (p : Str),
      (∀ j ∈ jobs, j.path ≠ p) →
      fsGet (runThreadedFS processChapterM jobs fs).1 p = fsGet fs p := by
  intro jobs
  induction jobs with
  | nil => intro fs p _; rfl
  | cons j rest ih =>
    intro fs p h
    rw [runThreadedFS]
    have hj : j.path ≠ p := h j (List.mem_cons_self _ _)
    have hrest := ih (processChapterM j fs).1 p (fun j' hm => h j' (List.mem_cons_of_mem _ hm))
    simp only [hrest]
    unfold processChapterM
    by_cases hf : j.failing = true
    · simp [hf]
    · simp [hf, fsPut, fsGet, hj]

lemma runThreadedFS_writes_nonfailing :
    ∀ (jobs : List ChapterJob) (fs : List (Str × Str)) (c : ChapterJob),
      c ∈ jobs → c.failing = false → (jobs.map ChapterJob.path).Nodup →
      fsGet (runThreadedFS processChapterM jobs fs).1 c.path = some c.output := by
  intro jobs
  induction jobs with
  | nil => intro fs c hc; cases hc
  | cons j rest ih =>
    intro fs c hc hcf hnd
    rw [runThreadedFS]
    rw [List.map_cons, List.nodup_cons] at hnd
    rcases List.mem_cons.mp hc with rfl | hcr
    · have hpaths : ∀ j' ∈ rest, j'.path ≠ c.path := by
        intro j' hm he
        exact hnd.1 (he ▸ List.mem_map_of_mem ChapterJob.path hm)
      simp only [runThreadedFS_fs_frame rest _ c.path hpaths]
      simp [processChapterM, hcf, fsPut, fsGet]
    · exact ih _ c hcr hcf hnd.2

lemma runThreadedFS_error_of_failing :
    ∀ (jobs : List ChapterJob) (fs : List (Str × Str)) (d : ChapterJob),
      d ∈ jobs → d.failing = true →
      (runThreadedFS processChapterM jobs fs).2 = Except.error () := by
  intro jobs
  induction jobs with
  | nil => intro fs d hd; cases hd
  | cons j rest ih =>
    intro fs d hd hdf
    rw [runThreadedFS]
    rcases List.mem_cons.mp hd with rfl | hdr
    · simp [processChapterM, hdf]
    · have herr := ih (processChapterM j fs).1 d hdr hdf
      cases h2 : (processChapterM j fs).2 with
      | error e => simp [h2]
      | ok b => simp [h2, herr]

/-- Twelve chapter jobs, the first one failing, the rest well-behaved with
pairwise-distinct chapter files. -/
def cexJobs : List ChapterJob :=
  [⟨"c0".data, true, "o0".data, "n0".data⟩,
    ⟨"c1".data, false, "o1".data, "n1".data⟩,
    ⟨"c2".data, false, "o2".data, "n2".data⟩,
    ⟨"c3".data, false, "o3".data, "n3".data⟩,
    ⟨"c4".data, false, "o4".data, "n4".data⟩,
    ⟨"c5".data, false, "o5".data, "n5".data⟩,
    ⟨"c6".data, false, "o6".data, "n6".data⟩,
    ⟨"c7".data, false, "o7".data, "n7".data⟩,
    ⟨"c8".data, false, "o8".data, "n8".data⟩,
    ⟨"c9".data, false, "o9".data, "n9".data⟩,
    ⟨"c10".data, false, "o10".data, "n10".data⟩,
    ⟨"c11".data, false, "o11".data, "n11".data⟩]

/-- Claim C6 counterexample: the claim as stated is false.  With twelve
chapters on the source's pool of width 10 (`max_workers=10`), chapter 0
failing fast and chapter 11 still queued when the failure surfaces — a valid
executor schedule in which 11 of the 12 submitted jobs started — the map
iterator's cleanup cancels chapter 11, which is never processed: its file is
never written, refuting "every other chapter is still processed to
completion". -/
theorem sibling_chapter_cancelled_counterexample :
    validSchedule 10 cexJobs 11 = true ∧
    (⟨"c11".data, false, "o11".data, "n11".data⟩ : ChapterJob) ∈ cexJobs ∧
    fsGet (runThreadedPool processChapterM cexJobs 11 []).1 "c11".data = none ∧
    ¬ fsGet (runThreadedPool processChapterM cexJobs 11 []).1 "c11".data
        = some "o11".data := by
  refine ⟨by decide, by simp [cexJobs], by decide, by decide⟩

/-- Claim C6 (amended): a failure while processing one chapter does not
prevent the sibling chapters *that have already started* from being
processed and producing their results: on every valid executor schedule of a
document run in which some chapter `d` fails, every non-failing chapter `c`
among the started prefix still runs to completion and has its output file
written, while the collected result surfaces the error; and when the number
of chapters is at most the pool width, all chapters start immediately, so
every sibling is processed.  Chapters still queued when the failure surfaces
may be cancelled and never run (see the counterexample). -/
theorem started_sibling_chapters_processed (w : Nat) (jobs : List ChapterJob) (m : Nat)
    (fs : List (Str × Str)) (c d : ChapterJob)
    (hv : validSchedule w jobs m = true)
    (hd : d ∈ jobs) (hdf : d.failing = true)
    (hc : c ∈ jobs.take m) (hcf : c.failing = false)
    (hnodup : (jobs.map ChapterJob.path).Nodup) :
    fsGet (runThreadedPool processChapterM jobs m fs).1 c.path = some c.output ∧
    (runThreadedPool processChapterM jobs m fs).2 = Except.error () ∧
    (jobs.length ≤ w → jobs.take m = jobs) := by
  have hany : jobs.any (fun j => j.failing) = true := List.any_eq_true.mpr ⟨d, hd, hdf⟩
  rw [validSchedule, if_pos hany] at hv
  simp only [Bool.and_eq_true, decide_eq_true_eq] at hv
  refine ⟨?_, ?_, ?_⟩
  · have hnodup' : ((jobs.take m).map ChapterJob.path).Nodup := by
      rw [List.map_take]
      exact List.Sublist.nodup (List.take_sublist _ _) hnodup
    exact runThreadedFS_writes_nonfailing (jobs.take m) fs c hc hcf hnodup'
  · obtain ⟨e, he, hef⟩ := List.any_eq_true.mp hv.1.1
    exact runThreadedFS_error_of_failing (jobs.take m) fs e he hef
  · intro hnw
    have hm : m = jobs.length :=
      Nat.le_antisymm hv.1.2 (by simpa [Nat.min_eq_right hnw] using hv.2)
    rw [hm, List.take_length]

/-- Witness for C6 (amended): three chapters (at most the pool width, so all
start: `m = 3` is the only valid schedule) where the middle one fails — the
other two still get their files written and the collected result is the
error. -/
theorem started_sibling_chapters_processed_witness :
    validSchedule 10
        [ChapterJob.mk "c1".data false "out1".data "n1".data,
          ChapterJob.mk "c2".data true "out2".data "n2".data,
          ChapterJob.mk "c3".data false "out3".data "n3".data] 3 = true ∧
    fsGet (runThreadedPool processChapterM
        [ChapterJob.mk "c1".data false "out1".data "n1".data,
          ChapterJob.mk "c2".data true "out2".data "n2".data,
          ChapterJob.mk "c3".data false "out3".data "n3".data] 3 []).1 "c3".data
      = some "out3".data ∧
    (runThreadedPool processChapterM
        [ChapterJob.mk "c1".data false "out1".data "n1".data,
          ChapterJob.mk "c2".data true "out2".data "n2".data,
          ChapterJob.mk "c3".data false "out3".data "n3".data] 3 []).2
      = Except.error () := by
  refine ⟨by decide, ?_, ?_⟩
  · exact (started_sibling_chapters_processed 10 _ 3 []
      (ChapterJob.mk "c3".data false "out3".data "n3".data)
      (ChapterJob.mk "c2".data true "out2".data "n2".data)
      (by decide) (by simp) rfl (by simp) rfl (by decide)).1
  · exact (started_sibling_chapters_processed 10 _ 3 []
      (ChapterJob.mk "c1".data false "out1".data "n1".data)
      (ChapterJob.mk "c2".data true "out2".data "n2".data)
      (by decide) (by simp) rfl (by simp) rfl (by decide)).2.1

lemma takeThroughPara_cons_ne_nil (n : Node) (rest : List Node) (k : Nat) :
    takeThroughPara (n :: rest) k ≠ [] := by
  rw [takeThroughPara]
  split
  · split <;> simp
  · simp

lemma afterNthPara_split (b : Node) :
    ∀ (nodes : List Node) (k : Nat), k < (selectP nodes).length →
      afterNthPara b nodes k = takeThroughPara nodes k ++ b :: dropAfterPara nodes k := by
  intro nodes
  induction nodes with
  | nil => intro k hk; simp [selectP] at hk
  | cons n rest ih =>
    intro k hk
    by_cases hp : isPara n = true
    · rcases Nat.eq_zero_or_pos k with rfl | hkpos
      · simp [afterNthPara, takeThroughPara, dropAfterPara, hp]
      · have hk0 : k ≠ 0 := Nat.pos_iff_ne_zero.mp hkpos
        have hrest : k - 1 < (selectP rest).length := by
          rw [selectP] at hk ⊢
          rw [List.filter_cons, if_pos hp] at hk
          simp only [List.length_cons] at hk
          omega
        simp [afterNthPara, takeThroughPara, dropAfterPara, hp, hk0, ih _ hrest]
    · have hp' : isPara n = false := by simpa using hp
      have hrest : k < (selectP rest).length := by
        rwa [selectP, List.filter_cons, if_neg (by simp [hp'])] at hk
      simp [afterNthPara, takeThroughPara, dropAfterPara, hp', ih _ hrest]

lemma takeThroughPara_getLast :
    ∀ (nodes : List Node) (k : Nat), k < (selectP nodes).length →
      (takeThroughPara nodes k).getLast? = (selectP nodes).get? k := by
  intro nodes
  induction nodes with
  | nil => intro k hk; simp [selectP] at hk
  | cons n rest ih =>
    intro k hk
    by_cases hp : isPara n = true
    · rcases Nat.eq_zero_or_pos k with rfl | hkpos
      · simp [takeThroughPara, selectP, List.filter_cons, hp]
      · have hk0 : k ≠ 0 := Nat.pos_iff_ne_zero.mp hkpos
        have hrest : k - 1 < (selectP rest).length := by
          rw [selectP] at hk ⊢
          rw [List.filter_cons, if_pos hp] at hk
          simp only [List.length_cons] at hk
          omega
        have hsel : selectP (n :: rest) = n :: selectP rest := by
          rw [selectP, List.filter_cons, if_pos hp]; rfl
        rw [takeThroughPara, if_pos hp, if_neg hk0, hsel]
        cases htail : takeThroughPara rest (k - 1) with
        | nil =>
          cases rest with
          | nil => simp [selectP] at hrest
          | cons m ms => exact absurd htail (takeThroughPara_cons_ne_nil m ms (k - 1))
        | cons x xs =>
          rw [List.getLast?_cons_cons, ← htail, ih _ hrest]
          have hksucc : k = (k - 1) + 1 := (Nat.succ_pred_eq_of_pos hkpos).symm
          rw [hksucc, List.get?_cons_succ, Nat.add_sub_cancel]
    · have hp' : isPara n = false := by simpa using hp
      have hsel : selectP (n :: rest) = selectP rest := by
        rw [selectP, List.filter_cons, if_neg (by simp [hp'])]; rfl
      have hrest : k < (selectP rest).length := by rwa [hsel] at hk
      rw [takeThroughPara, if_neg (by simp [hp']), hsel]
      cases htail : takeThroughPara rest k with
      | nil =>
        cases rest with
        | nil => simp [selectP] at hrest
        | cons m ms => exact absurd htail (takeThroughPara_cons_ne_nil m ms k)
      | cons x xs =>
        rw [List.getLast?_cons_cons, ← htail, ih _ hrest]

/-- Claim C9: for a chapter whose section has at least one paragraph-level
element, the illustration block is inserted immediately after the paragraph
at ordinal index `count // 2` among paragraph elements: the mutated section
is the prefix ending at that paragraph, then the block, then the rest; the
last element of that prefix is exactly paragraph number `count // 2`; and
the block carries the illustration's anchor sentence verbatim as its caption
(between `<p><em>` and `</em></p>`). -/
theorem illustration_middle_paragraph (nodes : List Node) (ws nm s : Str)
    (h : 0 < (selectP nodes).length) :
    illustrationInsert nodes (Node.other (buildIllustrationDiv ws nm s)) =
      takeThroughPara nodes ((selectP nodes).length / 2) ++
        Node.other (buildIllustrationDiv ws nm s) ::
          dropAfterPara nodes ((selectP nodes).length / 2) ∧
    (takeThroughPara nodes ((selectP nodes).length / 2)).getLast? =
      (selectP nodes).get? ((selectP nodes).length / 2) ∧
    buildIllustrationDiv ws nm s = illuDivPre ws nm ++ s ++ illuDivSuf ws := by
  have hlt : (selectP nodes).length / 2 < (selectP nodes).length :=
    Nat.div_lt_self h (by norm_num)
  refine ⟨afterNthPara_split _ nodes _ hlt, takeThroughPara_getLast nodes _ hlt, ?_⟩
  simp [buildIllustrationDiv, illuDivPre, illuDivSuf]

/-- Witness for C9: a section of seven paragraphs receives the block
immediately after the paragraph at index `7 // 2 = 3`. -/
theorem illustration_middle_paragraph_witness :
    0 < (selectP [Node.para "p0".data, Node.para "p1".data, Node.para "p2".data,
        Node.para "p3".data, Node.para "p4".data, Node.para "p5".data,
        Node.para "p6".data]).length ∧
    ((illustrationInsert [Node.para "p0".data, Node.para "p1".data, Node.para "p2".data,
          Node.para "p3".data, Node.para "p4".data, Node.para "p5".data,
          Node.para "p6".data] (Node.other (buildIllustrationDiv [] "im.png".data "S".data)) =
        takeThroughPara [Node.para "p0".data, Node.para "p1".data, Node.para "p2".data,
            Node.para "p3".data, Node.para "p4".data, Node.para "p5".data,
            Node.para "p6".data] 3 ++
          Node.other (buildIllustrationDiv [] "im.png".data "S".data) ::
            dropAfterPara [Node.para "p0".data, Node.para "p1".data, Node.para "p2".data,
              Node.para "p3".data, Node.para "p4".data, Node.para "p5".data,
              Node.para "p6".data] 3) ∧
      (takeThroughPara [Node.para "p0".data, Node.para "p1".data, Node.para "p2".data,
          Node.para "p3".data, Node.para "p4".data, Node.para "p5".data,
          Node.para "p6".data] 3).getLast? = some (Node.para "p3".data)) := by
  refine ⟨by decide, ?_, rfl⟩
  have h := illustration_middle_paragraph
    [Node.para "p0".data, Node.para "p1".data, Node.para "p2".data, Node.para "p3".data,
      Node.para "p4".data, Node.para "p5".data, Node.para "p6".data]
    [] "im.png".data "S".data (by decide)
  exact h.1

lemma truthyKey_of_ne (k : String) (h : k ≠ "") : truthyKey (some k) = true := by
  have : k.isEmpty = false := by
    rcases hb : k.isEmpty with _ | _
    · rfl
    · exact absurd ((String.isEmpty_iff k).mp hb) h
  simp [truthyKey, this]

lemma storeGet_storePut_self {V : Type} (s : List (String × V)) (k : String) (v : V) :
    storeGet (storePut s k v) k = some v := by
  simp [storeGet, storePut]

lemma storeGet_storePut_ne {V : Type} (s : List (String × V)) (k k' : String) (v : V)
    (h : k ≠ k') : storeGet (storePut s k v) k' = storeGet s k' := by
  simp [storeGet, storePut, h]

lemma cachedCall_hit {V : Type} (truthy : V → Bool) (s : List (String × V)) (k0 : String)
    (fv w : V) (hk : truthyKey (some k0) = true) (hg : storeGet s k0 = some w)
    (hw : truthy w = true) :
    cachedCall truthy s (some k0) fv = ⟨w, s, 1, 0⟩ := by
  simp [cachedCall, hk, hg, hw]

lemma cachedCall_cases {V : Type} (truthy : V → Bool) (s : List (String × V)) (k0 : String)
    (fv : V) (hk : truthyKey (some k0) = true) :
    (∃ w, storeGet s k0 = some w ∧ truthy w = true ∧
        cachedCall truthy s (some k0) fv = ⟨w, s, 1, 0⟩) ∨
      cachedCall truthy s (some k0) fv = ⟨fv, storePut s k0 fv, 1, 1⟩ := by
  cases hg : storeGet s k0 with
  | none => right; simp [cachedCall, hk, hg]
  | some v =>
    by_cases hv : truthy v = true
    · left; exact ⟨v, rfl, hv, by simp [cachedCall, hk, hg, hv]⟩
    · right; simp [cachedCall, hk, hg, hv]

lemma runCachedCalls_cons {V : Type} (truthy : V → Bool) (oracle : Nat → V) (k0 : String)
    (rest : List String) (s : List (String × V)) :
    runCachedCalls truthy oracle (k0 :: rest) s =
      ((cachedCall truthy s (some k0) (oracle 0)).value ::
          (runCachedCalls truthy (fun i => oracle (i + 1)) rest
            (cachedCall truthy s (some k0) (oracle 0)).store).1,
        (runCachedCalls truthy (fun i => oracle (i + 1)) rest
          (cachedCall truthy s (some k0) (oracle 0)).store).2.1,
        (cachedCall truthy s (some k0) (oracle 0)).calls +
          (runCachedCalls truthy (fun i => oracle (i + 1)) rest
            (cachedCall truthy s (some k0) (oracle 0)).store).2.2) := rfl

lemma runCachedCalls_frame {V : Type} (truthy : V → Bool) :
    ∀ (keys : List String) (oracle : Nat → V) (s : List (String × V)) (k : String),
      k ∉ keys → storeGet (runCachedCalls truthy oracle keys s).2.1 k = storeGet s k := by
  intro keys
  induction keys with
  | nil => intro oracle s k _; rfl
  | cons k0 rest ih =>
    intro oracle s k hk
    have hk0 : k0 ≠ k := fun he => hk (he ▸ List.mem_cons_self _ _)
    have hkr : k ∉ rest := fun hm => hk (List.mem_cons_of_mem _ hm)
    rw [runCachedCalls_cons]
    dsimp only
    rw [ih _ _ k hkr]
    by_cases hkey : truthyKey (some k0) = true
    · rcases cachedCall_cases truthy s k0 (oracle 0) hkey with ⟨w, _, _, hc⟩ | hc
      · rw [hc]
      · rw [hc]
        exact storeGet_storePut_ne s k0 k (oracle 0) hk0
    · have hkey' : truthyKey (some k0) = false := by simpa using hkey
      have hc : cachedCall truthy s (some k0) (oracle 0) = ⟨oracle 0, s, 0, 1⟩ := by
        simp [cachedCall, hkey']
      rw [hc]

lemma runCachedCalls_second {V : Type} (truthy : V → Bool) :
    ∀ (keys : List String) (oracle : Nat → V) (s : List (String × V)),
      keys.Nodup → (∀ k ∈ keys, k ≠ "") → (∀ i, truthy (oracle i) = true) →
      runCachedCalls truthy oracle keys (runCachedCalls truthy oracle keys s).2.1 =
        ((runCachedCalls truthy oracle keys s).1,
          (runCachedCalls truthy oracle keys s).2.1, 0) := by
  intro keys
  induction keys with
  | nil => intro oracle s _ _ _; rfl
  | cons k0 rest ih =>
    intro oracle s hnd hne hor
    have hkey : truthyKey (some k0) = true :=
      truthyKey_of_ne k0 (hne k0 (List.mem_cons_self _ _))
    rw [List.nodup_cons] at hnd
    have hnerest : ∀ k ∈ rest, k ≠ "" := fun k hm => hne k (List.mem_cons_of_mem _ hm)
    have horshift : ∀ i, truthy ((fun i => oracle (i + 1)) i) = true := fun i => hor (i + 1)
    rcases cachedCall_cases truthy s k0 (oracle 0) hkey with ⟨w, hg, hw, hc⟩ | hc
    · rw [runCachedCalls_cons truthy oracle k0 rest s, hc]
      dsimp only
      have hfr : storeGet (runCachedCalls truthy (fun i => oracle (i + 1)) rest s).2.1 k0
          = some w := by
        rw [runCachedCalls_frame truthy rest _ s k0 hnd.1]
        exact hg
      rw [runCachedCalls_cons truthy oracle k0 rest
        ((runCachedCalls truthy (fun i => oracle (i + 1)) rest s).2.1)]
      rw [cachedCall_hit truthy _ k0 (oracle 0) w hkey hfr hw]
      dsimp only
      rw [ih (fun i => oracle (i + 1)) s hnd.2 hnerest horshift]
      simp
    · rw [runCachedCalls_cons truthy oracle k0 rest s, hc]
      dsimp only
      have hfr : storeGet (runCachedCalls truthy (fun i => oracle (i + 1)) rest
          (storePut s k0 (oracle 0))).2.1 k0 = some (oracle 0) := by
        rw [runCachedCalls_frame truthy rest _ _ k0 hnd.1]
        exact storeGet_storePut_self s k0 (oracle 0)
      rw [runCachedCalls_cons truthy oracle k0 rest
        ((runCachedCalls truthy (fun i => oracle (i + 1)) rest (storePut s k0 (oracle 0))).2.1)]
      rw [cachedCall_hit truthy _ k0 (oracle 0) (oracle 0) hkey hfr (hor 0)]
      dsimp only
      rw [ih (fun i => oracle (i + 1)) (storePut s k0 (oracle 0)) hnd.2 hnerest horshift]
      simp

/-- Claim C2 (amended): re-running the chapter pipeline with the cache store
as the first run left it re-issues **zero** remote calls and produces
byte-identical output markup, *provided the cache keys are distinct and
non-empty (as the source's key strings are) and every remote result —
hence every cached value — is truthy (non-empty)*.  Without the truthiness
proviso the claim fails (see the counterexample), because
`if cached := get_cache(cache_key)` treats a falsy cached value as a miss.
`merge` stands for the (deterministic) merge of the five results into the
output markup. -/
theorem secondRun_no_remote_calls {V : Type} (truthy : V → Bool) (merge : List V → Str)
    (oracle : Nat → V) (keys : List String) (s0 : List (String × V))
    (hnd : keys.Nodup) (hne : ∀ k ∈ keys, k ≠ "")
    (hor : ∀ i, truthy (oracle i) = true) :
    (runCachedCalls truthy oracle keys (runCachedCalls truthy oracle keys s0).2.1).2.2 = 0 ∧
    merge (runCachedCalls truthy oracle keys (runCachedCalls truthy oracle keys s0).2.1).1 =
      merge (runCachedCalls truthy oracle keys s0).1 := by
  have h := runCachedCalls_second truthy keys oracle s0 hnd hne hor
  rw [h]
  exact ⟨rfl, rfl⟩

/-- Witness for C2 (amended): two concrete non-empty keys, truthy remote
results, empty initial store — the second run calls the remote zero times
and merges the same results. -/
theorem secondRun_no_remote_calls_witness :
    (["a", "b"] : List String).Nodup ∧ (∀ k ∈ (["a", "b"] : List String), k ≠ "") ∧
    (∀ i : Nat, (fun v : List Nat => !v.isEmpty) [i + 1] = true) ∧
    (runCachedCalls (fun v : List Nat => !v.isEmpty) (fun i => [i + 1]) ["a", "b"]
        (runCachedCalls (fun v : List Nat => !v.isEmpty) (fun i => [i + 1]) ["a", "b"] []).2.1).2.2
      = 0 := by
  refine ⟨by decide, by decide, fun i => rfl, ?_⟩
  exact (secondRun_no_remote_calls (fun v : List Nat => !v.isEmpty) (fun _ => [])
    (fun i => [i + 1]) ["a", "b"] [] (by decide) (by decide) (fun i => rfl)).1

/-- Claim C2 counterexample: the claim as stated — zero additional remote
calls for *every* set of cached generation results — is false.  With one
call whose remote (and therefore cached) result is the empty list (as when
the annotate tool returns zero items), the wrapper's truthiness test treats
the cached value as a miss and the second run invokes the remote function
again: one underlying call, not zero. -/
theorem secondRun_remote_call_counterexample :
    (runCachedCalls (fun v : List Nat => !v.isEmpty) (fun _ => []) ["k"]
        (runCachedCalls (fun v : List Nat => !v.isEmpty) (fun _ => []) ["k"] []).2.1).2.2
      = 1 ∧
    ¬ (runCachedCalls (fun v : List Nat => !v.isEmpty) (fun _ => []) ["k"]
        (runCachedCalls (fun v : List Nat => !v.isEmpty) (fun _ => []) ["k"] []).2.1).2.2
      = 0 := by
  exact ⟨rfl, by decide⟩

end EpubAnnotate
